import Mathlib

/-
Verification development for the sleep-window pipeline driver
(src/asleep/get_sleep.py of this repository).

The driver assembles a coarse per-epoch sleep prediction array, calls the
sleep_windows segmentation module, extracts per-block accelerometer data for a
second model, stitches the second model's refined per-block predictions back
onto the full-resolution timeline, and marks the longest sleep block per night
interval.

Timestamps and labels are embedded as Int, epoch indices as Nat.  Numpy
boolean-mask indexing and assignment are embedded with their exact semantics:
assignment of k values through a mask with k true positions succeeds
positionally; assignment of a single value broadcasts to every true position;
any other size mismatch raises, embedded as Option.none.

Functions of the sleep_windows module (imported as sw in the source) are not
part of this repository's source tree; where a claim depends on them they are
modelled from the specification, and each such definition's doc comment says
so explicitly.
-/

/-- Sentinel label for non-wear epochs (get_sleep.py line 37). -/
def NON_WEAR_PREDICTION_FLAG : Int := -1

/-- Module-level constant, 3 hours (get_sleep.py line 36).  It is defined but
never referenced anywhere else in the file: the reference gap-fill threshold
value is internal to the external sleep_windows module. -/
def NON_WEAR_THRESHOLD : Int := 3

/-- Epoch length in seconds, hard-coded inside get_sleep_windows
(get_sleep.py line 202). -/
def epoch_length : Nat := 30

/-- The command-line arguments accepted by main's argument parser
(get_sleep.py lines 232-293).  There is no option for a gap-fill threshold or
a minimum-block duration. -/
structure Args where
  filepath : String
  outdir : String
  force_download : Bool
  force_run : Bool
  remove_intermediate_files : Bool
  report_light_and_temp : Bool
  pytorch_device : String
  model_weight_path : String
  local_repo_path : String
  min_wear : Int
  time_shift : String
deriving DecidableEq

/-- The configuration values that the caller (get_sleep_windows, lines
201-206) supplies to the core segmentation calls, as a function of the parsed
command-line arguments.  The only value passed is the hard-coded epoch length;
no gap-fill threshold and no minimum-block duration appear at the call site,
and no argument is ever rejected, so the result is always `some epoch_length`
independently of `args`. -/
def segmentation_config : Args → Option Nat := fun _ => some epoch_length

/-- Number of true entries of a boolean mask. -/
def countTrue (mask : List Bool) : Nat := (mask.filter id).length

/-- Positional fill of the true positions of a mask with values taken in
order; unmasked positions are kept. -/
def maskFill : List Int → List Bool → List Int → List Int
  | [], _, _ => []
  | a :: as, [], _ => a :: as
  | a :: as, m :: ms, vs =>
    if m then vs.headD a :: maskFill as ms vs.tail
    else a :: maskFill as ms vs

/-- Numpy boolean-mask selection a[mask]: the values at true positions, in
order. -/
def maskSelect (vals : List Int) (mask : List Bool) : List Int :=
  (vals.zip mask).filterMap (fun p => if p.2 then some p.1 else none)

/-- Numpy boolean-mask assignment a[mask] = vals.  Succeeds when the value
count equals the number of true mask positions (positional assignment) or is
exactly 1 (broadcast to every true position); any other mismatch raises a
ValueError, embedded as none. -/
def numpyMaskAssign (a : List Int) (mask : List Bool) (vals : List Int) :
    Option (List Int) :=
  if mask.length ≠ a.length then none
  else if vals.length = countTrue mask then some (maskFill a mask vals)
  else if vals.length = 1 then
    some (maskFill a mask (List.replicate (countTrue mask) (vals.headD 0)))
  else none

/-- Boolean mask (times >= start_t) & (times < end_t) used at get_sleep.py
lines 365 and 453. -/
def timeFilter (times : List Int) (s e : Int) : List Bool :=
  times.map (fun t => decide (s ≤ t) && decide (t < e))

/-- Boolean mask test_pids == block_id used at get_sleep.py line 368. -/
def pidMask (test_pids : List Nat) (bid : Nat) : List Bool :=
  test_pids.map (fun p => decide (p = bid))

/-- Membership of a timestamp in a half-open block interval [start, end). -/
def inBlockB (b : Int × Int) (t : Int) : Bool :=
  decide (b.1 ≤ t) && decide (t < b.2)

/-- The coarse per-epoch prediction array assembled at get_sleep.py lines
171-184: an array of non-wear sentinels, one per epoch, whose wear positions
(mask ~non_wear) are assigned the sleep-window model's predictions. -/
def coarse_sleep_prediction (non_wear : List Bool) (window_pred : List Int) :
    Option (List Int) :=
  numpyMaskAssign (List.replicate non_wear.length NON_WEAR_PREDICTION_FLAG)
    (non_wear.map (fun b => !b)) window_pred

/-- The is_wear column derived at get_sleep.py line 196:
binary_y != NON_WEAR_PREDICTION_FLAG, elementwise. -/
def is_wear_col (binary_y : List Int) : List Bool :=
  binary_y.map (fun y => decide (y ≠ NON_WEAR_PREDICTION_FLAG))

/-- The stitching loop body state: process the remaining blocks starting at
block id bid, overwriting out through the block's time mask with the
predictions selected by test_pids == bid (get_sleep.py lines 361-371). -/
def stitchBlocks (times : List Int) (y_pred : List Int) (test_pids : List Nat) :
    Nat → List (Int × Int) → List Int → Option (List Int)
  | _, [], out => some out
  | bid, (s, e) :: bs, out =>
    if y_pred.length ≠ test_pids.length then none
    else
      match numpyMaskAssign out (timeFilter times s e)
          (maskSelect y_pred (pidMask test_pids bid)) with
      | none => none
      | some out2 => stitchBlocks times y_pred test_pids (bid + 1) bs out2

/-- The Result Stitcher (get_sleep.py lines 359-371): starting from the coarse
binary labels, overwrite each block's epochs with the second model's
predictions for that block id. -/
def stitch (blocks : List (Int × Int)) (times : List Int)
    (binary_y y_pred : List Int) (test_pids : List Nat) : Option (List Int) :=
  stitchBlocks times y_pred test_pids 0 blocks binary_y

/-- Loop of get_master_df (get_sleep.py lines 449-463): for each sleep-block
row in order, select the epochs whose timestamp lies in [start, end) and a
matching run of block ids; accumulate by concatenation (the source's special
case for an empty accumulator assigns instead of concatenating). -/
def get_master_go (times : List Int) (acc : List Int) :
    Nat → List (Int × Int) → List Int × List Nat → List Int × List Nat
  | _, [], m => m
  | idx, (s, e) :: bs, (macc, mpids) =>
    let tf := timeFilter times s e
    let current := maskSelect acc tf
    let day_pid := List.replicate (countTrue tf) idx
    if mpids.length = 0 then
      get_master_go times acc (idx + 1) bs (current, day_pid)
    else
      get_master_go times acc (idx + 1) bs (macc ++ current, mpids ++ day_pid)

/-- get_master_df (get_sleep.py lines 444-465): per-block extraction of epoch
data and the block-to-epoch index mapping (master_npids). -/
def get_master_df (blocks : List (Int × Int)) (times : List Int)
    (acc : List Int) : List Int × List Nat :=
  get_master_go times acc 0 blocks ([], [])

/-- Outcome of main after sleep-window detection (get_sleep.py lines
348-371): the no-sleep-windows branch prints a report and exits normally,
skipping the second model and all summary generation; a numpy ValueError in
the stitching loop is an uncaught fatal error; otherwise the stitched output
is produced and flows into summary generation. -/
inductive RunOutcome where
  | noSleepWindows : RunOutcome
  | fatalError : RunOutcome
  | completed : List Int → RunOutcome
deriving DecidableEq

/-- The branch structure of main from the get_master_df result onwards
(get_sleep.py lines 345-371): if master_npids is empty the run reports "no
sleep windows detected" and terminates normally; otherwise the second model's
outputs are stitched. -/
def main_after_windows (blocks : List (Int × Int)) (times acc binary_y : List Int)
    (y_pred : List Int) (test_pids : List Nat) : RunOutcome :=
  if (get_master_df blocks times acc).2.length ≤ 0 then RunOutcome.noSleepWindows
  else
    match stitch blocks times binary_y y_pred test_pids with
    | none => RunOutcome.fatalError
    | some out => RunOutcome.completed out

/-- One row of the sleep block table all_sleep_wins_df (get_sleep.py lines
212-215 and 416): start, end, interval_start, interval_end, wear_duration_H,
is_longest_block.  The source column name end is a Lean keyword, written
end_. -/
structure SleepBlockRow where
  start : Int
  end_ : Int
  interval_start : Int
  interval_end : Int
  wear_duration_H : Int
  is_longest_block : Bool
deriving DecidableEq

/-- Replace a row's is_longest_block flag. -/
def setFlag (b : Bool) (r : SleepBlockRow) : SleepBlockRow :=
  ⟨r.start, r.end_, r.interval_start, r.interval_end, r.wear_duration_H, b⟩

/-- The longest-block marking loop (get_sleep.py lines 416-421): initialise
is_longest_block to False on every row, then for each (start, end) entry of
the per-night longest-block table set the flag on every table row whose start
and end both match the entry. -/
def mark_longest (table : List SleepBlockRow) (longest : List (Int × Int)) :
    List SleepBlockRow :=
  longest.foldl
    (fun tb le =>
      tb.map (fun r =>
        if r.start = le.1 ∧ r.end_ = le.2 then setFlag true r else r))
    (table.map (setFlag false))

/-- Duration of a sleep block table row. -/
def blockDuration (r : SleepBlockRow) : Int := r.end_ - r.start

/-- Strict comparison used for longest-block selection: strictly longer, or
equally long and strictly earlier start. -/
def betterBlock (a b : SleepBlockRow) : Bool :=
  decide (blockDuration b < blockDuration a) ||
    (decide (blockDuration a = blockDuration b) && decide (a.start < b.start))

/-- Modelled from the spec: the per-night longest-block choice made inside
sw.time_series2sleep_blocks, which is not part of this repository's source
tree.  Per the specification, the block of maximum duration is selected, with
ties broken by the earliest start time; an interval with zero sleep blocks
contributes nothing. -/
def pickLongest : List SleepBlockRow → Option SleepBlockRow
  | [] => none
  | r :: rs => some (rs.foldl (fun best x => if betterBlock x best then x else best) r)

/-- Modelled from the spec: the per-night longest-block table
(sleep_wins_long_per_day) produced by sw.time_series2sleep_blocks, which is
not part of this repository's source tree.  For each night interval, the
(start, end) pair of the maximum-duration (ties earliest-start) sleep block
among the table rows assigned to that interval; intervals with no assigned
row are skipped. -/
def longest_per_interval (table : List SleepBlockRow)
    (intervals : List (Int × Int)) : List (Int × Int) :=
  intervals.filterMap (fun iv =>
    (pickLongest (table.filter (fun r => decide (r.interval_start = iv.1)))).map
      (fun r => (r.start, r.end_)))

/-- Binary label value denoting sleep in the segmentation series (the spec's
sleep binary label). -/
def SLEEP_LABEL : Int := 1

/-- An index segment of the epoch series: a run of consecutive epochs sharing
one (label, wear) state, with its start index and length. -/
structure Seg where
  label : Int
  wear : Bool
  startIdx : Nat
  len : Nat
deriving DecidableEq

/-- Does index i fall inside segment g. -/
def inSeg (g : Seg) (i : Nat) : Bool :=
  decide (g.startIdx ≤ i) && decide (i < g.startIdx + g.len)

/-- Modelled from the spec: the Block Extractor (sw.find_sleep_block_duration,
not part of this repository's source tree) — linear scan run-length encoding
an epoch series of (binary label, wear flag) pairs into maximal constant-state
segments.  Helper carrying the current run's start index, state and length. -/
def blocksOfGo : Nat → (Int × Bool) → Nat → List (Int × Bool) → List Seg
  | s, st, n, [] => [⟨st.1, st.2, s, n⟩]
  | s, st, n, e :: es =>
    if e = st then blocksOfGo s st (n + 1) es
    else ⟨st.1, st.2, s, n⟩ :: blocksOfGo (s + n) e 1 es

/-- Modelled from the spec: the Block Extractor output for a series. -/
def blocksOf : List (Int × Bool) → List Seg
  | [] => []
  | e :: es => blocksOfGo 0 e 1 es

/-- Modelled from the spec: the Block Validator (sw.find_valid_sleep_blocks,
not part of this repository's source tree) — indices of sleep-labelled
segments whose duration exceeds the minimum-duration threshold. -/
def find_valid_sleep_blocks (segs : List Seg) (epoch_len min_dur : Nat) :
    List Nat :=
  (segs.enum.filter (fun p =>
    decide (p.2.label = SLEEP_LABEL) && decide (min_dur < p.2.len * epoch_len))).map
    Prod.fst

/-- Modelled from the spec: gap selection (sw.find_gaps2fill, not part of this
repository's source tree) — from the original block boundaries, the segments
that are not sleep-labelled, lie strictly between two valid sleep blocks, and
whose duration is strictly below the gap-fill threshold. -/
def find_gaps2fill (series : List (Int × Bool)) (epoch_len min_dur thresh : Nat) :
    List Seg :=
  let segs := blocksOf series
  let valid := find_valid_sleep_blocks segs epoch_len min_dur
  (segs.enum.filter (fun p =>
    decide (p.2.label ≠ SLEEP_LABEL) &&
      (valid.any (fun i => decide (i < p.1)) &&
        (valid.any (fun i => decide (p.1 < i)) &&
          decide (p.2.len * epoch_len < thresh))))).map Prod.snd

/-- Relabel every epoch whose index satisfies cover to the sleep binary label,
keeping the wear flag; i is the index of the first element of the remaining
series. -/
def fillFrom (cover : Nat → Bool) : Nat → List (Int × Bool) → List (Int × Bool)
  | _, [] => []
  | i, e :: es =>
    (if cover i then (SLEEP_LABEL, e.2) else e) :: fillFrom cover (i + 1) es

/-- Relabel the epochs of one gap segment to sleep (wear flag untouched). -/
def fill_one_gap (g : Seg) (series : List (Int × Bool)) : List (Int × Bool) :=
  fillFrom (fun i => inSeg g i) 0 series

/-- Modelled from the spec: sw.fill_gaps (not part of this repository's
source tree) — a single pass relabelling to sleep every epoch covered by some
gap of the given set, leaving wear flags untouched. -/
def fill_gaps (series : List (Int × Bool)) (gs : List Seg) : List (Int × Bool) :=
  fillFrom (fun i => gs.any (fun g => inSeg g i)) 0 series

/-! Helper lemmas about masks, fills and selections. -/

theorem countTrue_nil : countTrue [] = 0 := rfl

theorem countTrue_cons (m : Bool) (ms : List Bool) :
    countTrue (m :: ms) = (if m then 1 else 0) + countTrue ms := by
  cases m <;> simp [countTrue, List.filter_cons, Nat.add_comm]

theorem maskFill_length (a : List Int) (mask : List Bool) (vals : List Int) :
    (maskFill a mask vals).length = a.length := by
  induction a generalizing mask vals with
  | nil => simp [maskFill]
  | cons x xs ih =>
    cases mask with
    | nil => simp [maskFill]
    | cons m ms =>
      by_cases hm : m = true
      · subst hm; simp [maskFill, ih]
      · simp at hm; subst hm; simp [maskFill, ih]

theorem maskFill_getElem?_of_not_true (a : List Int) (mask : List Bool)
    (vals : List Int) (i : Nat) (h : mask[i]? ≠ some true) :
    (maskFill a mask vals)[i]? = a[i]? := by
  induction a generalizing mask vals i with
  | nil => simp [maskFill]
  | cons x xs ih =>
    cases mask with
    | nil => simp [maskFill]
    | cons m ms =>
      cases i with
      | zero =>
        cases m with
        | false => simp [maskFill]
        | true => simp at h
      | succ j =>
        have h' : ms[j]? ≠ some true := by simpa using h
        cases m with
        | false => simpa [maskFill] using ih ms vals j h'
        | true => simpa [maskFill] using ih ms vals.tail j h'

theorem maskSelect_nil_mask (a : List Int) : maskSelect a [] = [] := by
  cases a <;> simp [maskSelect]

theorem maskSelect_nil : (mask : List Bool) → maskSelect [] mask = []
  | _ => by simp [maskSelect]

theorem maskSelect_cons (v : Int) (vs : List Int) (m : Bool) (ms : List Bool) :
    maskSelect (v :: vs) (m :: ms)
      = if m then v :: maskSelect vs ms else maskSelect vs ms := by
  cases m <;> simp [maskSelect]

theorem maskSelect_length (a : List Int) (mask : List Bool)
    (h : mask.length = a.length) : (maskSelect a mask).length = countTrue mask := by
  induction a generalizing mask with
  | nil =>
    have : mask = [] := by
      cases mask with
      | nil => rfl
      | cons m ms => simp at h
    subst this; simp [maskSelect, countTrue]
  | cons x xs ih =>
    cases mask with
    | nil => simp at h
    | cons m ms =>
      have h' : ms.length = xs.length := by simpa using h
      cases m <;> simp [maskSelect_cons, countTrue_cons, ih ms h', Nat.add_comm]

theorem maskSelect_maskFill (a : List Int) (mask : List Bool) (vals : List Int)
    (hm : mask.length = a.length) (hv : vals.length = countTrue mask) :
    maskSelect (maskFill a mask vals) mask = vals := by
  induction a generalizing mask vals with
  | nil =>
    have : mask = [] := by
      cases mask with
      | nil => rfl
      | cons m ms => simp at hm
    subst this
    have : vals = [] := by
      simpa [countTrue, List.length_eq_zero] using hv
    subst this; simp [maskFill, maskSelect]
  | cons x xs ih =>
    cases mask with
    | nil => simp at hm
    | cons m ms =>
      have hm' : ms.length = xs.length := by simpa using hm
      cases m with
      | false =>
        have hv' : vals.length = countTrue ms := by
          simpa [countTrue_cons] using hv
        simp [maskFill, maskSelect_cons, ih ms vals hm' hv']
      | true =>
        have hct : countTrue (true :: ms) = 1 + countTrue ms := by
          simp [countTrue_cons]
        have hpos : 0 < vals.length := by
          rw [hv, hct]; omega
        cases vals with
        | nil => simp at hpos
        | cons v vs =>
          have hv' : vs.length = countTrue ms := by
            simpa [countTrue_cons, Nat.add_comm] using hv
          simp [maskFill, maskSelect_cons, ih ms vs hm' hv']

theorem maskSelect_congr (r1 r2 : List Int) (mask : List Bool)
    (hlen : r1.length = r2.length)
    (h : ∀ i : Nat, mask[i]? = some true → r1[i]? = r2[i]?) :
    maskSelect r1 mask = maskSelect r2 mask := by
  induction mask generalizing r1 r2 with
  | nil => simp [maskSelect_nil_mask]
  | cons m ms ih =>
    cases r1 with
    | nil =>
      have : r2 = [] := by
        cases r2 with
        | nil => rfl
        | cons y ys => simp at hlen
      subst this; rfl
    | cons x xs =>
      cases r2 with
      | nil => simp at hlen
      | cons y ys =>
        have hlen' : xs.length = ys.length := by simpa using hlen
        have h' : ∀ i : Nat, ms[i]? = some true → xs[i]? = ys[i]? := by
          intro i hi
          have hmem : (m :: ms)[i + 1]? = some true := by simpa using hi
          have := h (i + 1) hmem
          simpa using this
        cases m with
        | false => simpa [maskSelect_cons] using ih xs ys hlen' h'
        | true =>
          have hxy : x = y := by
            have := h 0 (by simp)
            simpa using this
          subst hxy
          simp [maskSelect_cons, ih xs ys hlen' h']

theorem timeFilter_eq_map (times : List Int) (s e : Int) :
    timeFilter times s e = times.map (inBlockB (s, e)) := rfl

theorem timeFilter_length (times : List Int) (s e : Int) :
    (timeFilter times s e).length = times.length := by
  simp [timeFilter]

theorem timeFilter_getElem? (times : List Int) (s e : Int) (i : Nat) :
    (timeFilter times s e)[i]? = (times[i]?).map (inBlockB (s, e)) := by
  simp [timeFilter_eq_map]

theorem countTrue_map {α : Type} (l : List α) (f : α → Bool) :
    countTrue (l.map f) = (l.filter f).length := by
  induction l with
  | nil => rfl
  | cons x xs ih =>
    by_cases hx : f x = true <;>
      simp [countTrue_cons, List.filter_cons, hx, ih, Nat.add_comm]

theorem countTrue_timeFilter (times : List Int) (s e : Int) :
    countTrue (timeFilter times s e) = (times.filter (inBlockB (s, e))).length := by
  rw [timeFilter_eq_map, countTrue_map]

theorem maskSelect_timeFilter (times acc : List Int) (s e : Int)
    (h : acc.length = times.length) :
    maskSelect acc (timeFilter times s e)
      = ((times.zip acc).filter (fun p => inBlockB (s, e) p.1)).map Prod.snd := by
  induction times generalizing acc with
  | nil =>
    have : acc = [] := by
      cases acc with
      | nil => rfl
      | cons a as => simp at h
    subst this; rfl
  | cons t ts ih =>
    cases acc with
    | nil => simp at h
    | cons a as =>
      have h' : as.length = ts.length := by simpa using h
      have hmap : timeFilter (t :: ts) s e
          = inBlockB (s, e) t :: timeFilter ts s e := rfl
      by_cases hb : inBlockB (s, e) t = true <;>
        simp [hmap, maskSelect_cons, hb, List.filter_cons, ih as h']

/-! Claim theorems. -/

/-- C7: for every epoch, the derived wear flag is false if and only if the
epoch's derived binary label equals the non-wear sentinel -1; epochs with any
other binary label have wear flag true (get_sleep.py line 196). -/
theorem is_wear_false_iff_sentinel (ys : List Int) (i : Nat) :
    ((is_wear_col ys)[i]? = some false ↔ ys[i]? = some NON_WEAR_PREDICTION_FLAG) ∧
    ((is_wear_col ys)[i]? = some true ↔
      ∃ y, ys[i]? = some y ∧ y ≠ NON_WEAR_PREDICTION_FLAG) := by
  unfold is_wear_col
  rw [List.getElem?_map]
  cases h : ys[i]? with
  | none => simp
  | some y =>
    by_cases hy : y = NON_WEAR_PREDICTION_FLAG <;> simp [hy]

/-- C10: in the coarse per-epoch sleep prediction array (get_sleep.py lines
171-184), every epoch whose non-wear flag is true holds the sentinel -1, and
exactly the epochs whose non-wear flag is false are overwritten, in order,
with the sleep-window model's predictions (one prediction per worn epoch). -/
theorem coarse_sleep_prediction_spec (non_wear : List Bool)
    (window_pred : List Int)
    (hlen : window_pred.length = countTrue (non_wear.map (fun b => !b))) :
    ∃ out, coarse_sleep_prediction non_wear window_pred = some out ∧
      out.length = non_wear.length ∧
      (∀ i : Nat, non_wear[i]? = some true →
        out[i]? = some NON_WEAR_PREDICTION_FLAG) ∧
      maskSelect out (non_wear.map (fun b => !b)) = window_pred := by
  have hmask : (non_wear.map (fun b => !b)).length
      = (List.replicate non_wear.length NON_WEAR_PREDICTION_FLAG).length := by
    simp
  refine ⟨maskFill (List.replicate non_wear.length NON_WEAR_PREDICTION_FLAG)
      (non_wear.map (fun b => !b)) window_pred, ?_, ?_, ?_, ?_⟩
  · unfold coarse_sleep_prediction numpyMaskAssign
    simp only [hmask]
    simp [hlen]
  · rw [maskFill_length]; simp
  · intro i hi
    have hlt : i < non_wear.length := by
      by_contra hge
      have : non_wear[i]? = none := List.getElem?_eq_none (by omega)
      simp [this] at hi
    have hmaski : (non_wear.map (fun b => !b))[i]? = some false := by
      rw [List.getElem?_map, hi]; rfl
    rw [maskFill_getElem?_of_not_true _ _ _ _ (by simp [hmaski])]
    simp [List.getElem?_replicate, hlt]
  · exact maskSelect_maskFill _ _ _ hmask (by simpa using hlen)

/-- C10 witness: a concrete run with two worn and two non-worn epochs. -/
theorem coarse_sleep_prediction_spec_witness :
    [4, 7].length = countTrue ([true, false, true, false].map (fun b => !b)) ∧
    (∃ out, coarse_sleep_prediction [true, false, true, false] [4, 7] = some out ∧
      out.length = [true, false, true, false].length ∧
      (∀ i : Nat, [true, false, true, false][i]? = some true →
        out[i]? = some NON_WEAR_PREDICTION_FLAG) ∧
      maskSelect out ([true, false, true, false].map (fun b => !b)) = [4, 7]) :=
  ⟨by decide, coarse_sleep_prediction_spec [true, false, true, false] [4, 7] (by decide)⟩

/-- C3: if the block-to-epoch mapping covers no epochs (master_npids is
empty), main takes the normal no-sleep-windows branch (get_sleep.py lines
348-353): it reports, skips the second model and summary generation, and
terminates without an error outcome and without stitched or summary output. -/
theorem no_sleep_windows_normal_termination (blocks : List (Int × Int))
    (times acc binary_y y_pred : List Int) (test_pids : List Nat)
    (h : (get_master_df blocks times acc).2 = []) :
    main_after_windows blocks times acc binary_y y_pred test_pids
      = RunOutcome.noSleepWindows := by
  unfold main_after_windows
  simp [h]

/-- C3 witness: one sleep-block row covering none of the two epochs. -/
theorem no_sleep_windows_normal_termination_witness :
    (get_master_df [(10, 20)] [0, 1] [5, 6]).2 = [] ∧
    main_after_windows [(10, 20)] [0, 1] [5, 6] [0, 0] [] []
      = RunOutcome.noSleepWindows :=
  ⟨by decide, no_sleep_windows_normal_termination [(10, 20)] [0, 1] [5, 6]
    [0, 0] [] [] (by decide)⟩

/-- C8 (amended): the epoch duration used by the core segmentation is the
constant 30 s hard-coded at the call site (get_sleep.py line 202); neither a
gap-fill threshold nor a minimum-valid-block duration is consumed from the
caller — the 3-hour reference value exists only as the unused module constant
NON_WEAR_THRESHOLD (line 36). -/
theorem segmentation_config_constant : ∀ a : Args,
    segmentation_config a = some epoch_length ∧ epoch_length = 30 ∧
      NON_WEAR_THRESHOLD = 3 :=
  fun _ => ⟨rfl, rfl, rfl⟩

/-- C8 counterexample: two argument vectors disagreeing in every field yield
the identical segmentation configuration, which moreover has no field for a
gap-fill threshold or a minimum-block duration: those parameters are not
consumed from the caller at invocation time. -/
theorem segmentation_config_ignores_args :
    segmentation_config
        ⟨"a.cwa", "outputs/", false, false, false, false, "cpu", "", "", 22, "0"⟩
      = some 30 ∧
    segmentation_config
        ⟨"b.bin", "other/", true, true, true, true, "cuda:0", "w.mdl", "r", -5, "+1"⟩
      = some 30 ∧
    (⟨"a.cwa", "outputs/", false, false, false, false, "cpu", "", "", 22, "0"⟩ : Args)
      ≠ ⟨"b.bin", "other/", true, true, true, true, "cuda:0", "w.mdl", "r", -5, "+1"⟩ :=
  ⟨rfl, rfl, by decide⟩

/-- C9 (amended): the core segmentation always runs with the fixed epoch
length 30, which is positive, and the reference threshold constant is
positive; a non-positive gap-fill threshold or minimum-block duration can
never reach the core because neither value is configurable. -/
theorem segmentation_thresholds_positive : ∀ a : Args,
    ∃ n, segmentation_config a = some n ∧ 0 < n ∧ 0 < NON_WEAR_THRESHOLD :=
  fun _ => ⟨30, rfl, by decide, by decide⟩

/-- C9 counterexample: the configuration phase has no rejection path — a
concrete argument vector (with a negative min_wear) is accepted and the
segmentation configuration is produced, so no misconfigured value is ever
"rejected at configuration time"; the claimed rejection behaviour does not
exist in the code. -/
theorem segmentation_config_never_rejects :
    segmentation_config
        ⟨"a.cwa", "outputs/", false, false, false, false, "cpu", "", "", -22, "0"⟩
      ≠ none := by
  decide

theorem stitchBlocks_none (times y_pred : List Int) (test_pids : List Nat)
    (hlen : y_pred.length = test_pids.length) :
    ∀ (bs : List (Int × Int)) (bid : Nat) (out : List Int),
    (∃ k s e, bs[k]? = some (s, e) ∧
      (maskSelect y_pred (pidMask test_pids (bid + k))).length
        ≠ countTrue (timeFilter times s e) ∧
      (maskSelect y_pred (pidMask test_pids (bid + k))).length ≠ 1) →
    stitchBlocks times y_pred test_pids bid bs out = none := by
  intro bs
  induction bs with
  | nil =>
    rintro bid out ⟨k, s, e, hk, -, -⟩
    simp at hk
  | cons b bs' ih =>
    rintro bid out ⟨k, s, e, hk, hne, hne1⟩
    obtain ⟨s0, e0⟩ := b
    rw [stitchBlocks]
    simp only [hlen, ne_eq, not_true_eq_false, if_false, ite_false]
    cases k with
    | zero =>
      have hse : s0 = s ∧ e0 = e := by
        have : some (s0, e0) = some (s, e) := by simpa using hk
        simp at this
        exact this
      obtain ⟨hs, he⟩ := hse
      have hz : bid + 0 = bid := rfl
      rw [hz] at hne hne1
      rw [← hs, ← he] at hne
      have hassign : numpyMaskAssign out (timeFilter times s0 e0)
          (maskSelect y_pred (pidMask test_pids bid)) = none := by
        unfold numpyMaskAssign
        by_cases hg : (timeFilter times s0 e0).length ≠ out.length
        · simp [hg]
        · simp [hg, hne, hne1]
      rw [hassign]
    | succ k' =>
      have hk' : bs'[k']? = some (s, e) := by simpa using hk
      have harith : bid + (k' + 1) = (bid + 1) + k' := by omega
      rw [harith] at hne hne1
      cases hassign : numpyMaskAssign out (timeFilter times s0 e0)
          (maskSelect y_pred (pidMask test_pids bid)) with
      | none => rfl
      | some out2 =>
        exact ih (bid + 1) out2 ⟨k', s, e, hk', hne, hne1⟩

/-- C1 (amended): if, for some block id, the number of refined predictions
differs from the number of epochs whose timestamps lie in that block's
[start, end) AND that number is not exactly 1, the Result Stitcher fails with
a reported, inspectable fatal error (an uncaught numpy ValueError, embedded
as none) and produces no label array.  When the refined-prediction count is
exactly 1, numpy broadcasting instead silently overwrites every epoch of the
block with that single value (see the counterexample theorem). -/
theorem stitch_mismatch_fatal (blocks : List (Int × Int))
    (times binary_y y_pred : List Int) (test_pids : List Nat)
    (hlen : y_pred.length = test_pids.length)
    (hbad : ∃ k s e, blocks[k]? = some (s, e) ∧
      (maskSelect y_pred (pidMask test_pids k)).length
        ≠ countTrue (timeFilter times s e) ∧
      (maskSelect y_pred (pidMask test_pids k)).length ≠ 1) :
    stitch blocks times binary_y y_pred test_pids = none := by
  unfold stitch
  apply stitchBlocks_none times y_pred test_pids hlen blocks 0 binary_y
  obtain ⟨k, s, e, hk, hne, hne1⟩ := hbad
  exact ⟨k, s, e, hk, by simpa using hne, by simpa using hne1⟩

/-- C1 witness: three predictions for a two-epoch block abort stitching. -/
theorem stitch_mismatch_fatal_witness :
    ([5, 6, 7] : List Int).length = ([0, 0, 0] : List Nat).length ∧
    (∃ k s e, ([((0 : Int), (2 : Int))])[k]? = some (s, e) ∧
      (maskSelect [5, 6, 7] (pidMask [0, 0, 0] k)).length
        ≠ countTrue (timeFilter [0, 1] s e) ∧
      (maskSelect [5, 6, 7] (pidMask [0, 0, 0] k)).length ≠ 1) ∧
    stitch [(0, 2)] [0, 1] [9, 9] [5, 6, 7] [0, 0, 0] = none :=
  ⟨rfl, ⟨0, 0, 2, by decide, by decide, by decide⟩,
    stitch_mismatch_fatal [(0, 2)] [0, 1] [9, 9] [5, 6, 7] [0, 0, 0] rfl
      ⟨0, 0, 2, by decide, by decide, by decide⟩⟩

/-- C1 counterexample: the claim as stated is false on the code.  For the
single block [0, 2) containing the two epochs 0 and 1, a refined-prediction
array of length 1 differs from the block's epoch count 2, yet stitching does
not fail: numpy broadcasting silently overwrites both epochs of the label
array with the single value 5. -/
theorem stitch_single_prediction_broadcasts :
    (maskSelect [5] (pidMask [0] 0)).length = 1 ∧
    countTrue (timeFilter [0, 1] 0 2) = 2 ∧
    stitch [(0, 2)] [0, 1] [9, 9] [5] [0] = some [5, 5] := by
  refine ⟨by decide, by decide, by decide⟩

theorem stitchBlocks_sound (times y_pred : List Int) (test_pids : List Nat)
    (hlen : y_pred.length = test_pids.length) :
    ∀ (bs : List (Int × Int)) (bid : Nat) (out : List Int),
    out.length = times.length →
    (∀ k s e, bs[k]? = some (s, e) →
      (maskSelect y_pred (pidMask test_pids (bid + k))).length
        = countTrue (timeFilter times s e)) →
    List.Pairwise (fun b1 b2 => ∀ t : Int,
      ¬(inBlockB b1 t = true ∧ inBlockB b2 t = true)) bs →
    ∃ res, stitchBlocks times y_pred test_pids bid bs out = some res ∧
      res.length = times.length ∧
      (∀ i : Nat,
        (∀ b ∈ bs, ∀ t : Int, times[i]? = some t → inBlockB b t = false) →
        res[i]? = out[i]?) ∧
      (∀ k s e, bs[k]? = some (s, e) →
        maskSelect res (timeFilter times s e)
          = maskSelect y_pred (pidMask test_pids (bid + k))) := by
  intro bs
  induction bs with
  | nil =>
    intro bid out hout _ _
    refine ⟨out, rfl, hout, fun i _ => rfl, fun k s e hk => ?_⟩
    simp at hk
  | cons b bs' ih =>
    intro bid out hout hcnt hdisj
    obtain ⟨s0, e0⟩ := b
    have htf_len : (timeFilter times s0 e0).length = times.length :=
      timeFilter_length times s0 e0
    have heq : ¬((timeFilter times s0 e0).length ≠ out.length) := by
      rw [htf_len, hout]; simp
    have hvals : (maskSelect y_pred (pidMask test_pids bid)).length
        = countTrue (timeFilter times s0 e0) := by
      have := hcnt 0 s0 e0 (by simp)
      simpa using this
    have hassign : numpyMaskAssign out (timeFilter times s0 e0)
        (maskSelect y_pred (pidMask test_pids bid))
        = some (maskFill out (timeFilter times s0 e0)
            (maskSelect y_pred (pidMask test_pids bid))) := by
      unfold numpyMaskAssign
      rw [if_neg heq, if_pos hvals]
    have hout2 : (maskFill out (timeFilter times s0 e0)
        (maskSelect y_pred (pidMask test_pids bid))).length = times.length := by
      rw [maskFill_length, hout]
    have hcnt' : ∀ k s e, bs'[k]? = some (s, e) →
        (maskSelect y_pred (pidMask test_pids ((bid + 1) + k))).length
          = countTrue (timeFilter times s e) := by
      intro k s e hk
      have := hcnt (k + 1) s e (by simpa using hk)
      rw [show bid + (k + 1) = (bid + 1) + k from by omega] at this
      exact this
    obtain ⟨hhead, htail⟩ := List.pairwise_cons.mp hdisj
    obtain ⟨res, hres, hreslen, hpres, hsel⟩ :=
      ih (bid + 1) (maskFill out (timeFilter times s0 e0)
        (maskSelect y_pred (pidMask test_pids bid))) hout2 hcnt' htail
    refine ⟨res, ?_, hreslen, ?_, ?_⟩
    · rw [stitchBlocks]
      simp only [hlen, ne_eq, not_true_eq_false, ite_false]
      rw [hassign]
      exact hres
    · intro i hmiss
      have hmiss' : ∀ b ∈ bs', ∀ t : Int, times[i]? = some t →
          inBlockB b t = false :=
        fun b hb => hmiss b (List.mem_cons_of_mem _ hb)
      have h1 : res[i]? = (maskFill out (timeFilter times s0 e0)
          (maskSelect y_pred (pidMask test_pids bid)))[i]? := hpres i hmiss'
      have h2 : (maskFill out (timeFilter times s0 e0)
          (maskSelect y_pred (pidMask test_pids bid)))[i]? = out[i]? := by
        apply maskFill_getElem?_of_not_true
        intro hcontra
        rw [timeFilter_getElem?] at hcontra
        cases ht : times[i]? with
        | none => rw [ht] at hcontra; simp at hcontra
        | some t =>
          rw [ht] at hcontra
          simp only [Option.map_some', Option.some_inj] at hcontra
          have hmem := hmiss (s0, e0) (List.mem_cons_self _ _) t ht
          rw [hmem] at hcontra
          exact Bool.false_ne_true hcontra
      rw [h1, h2]
    · intro k s e hk
      cases k with
      | zero =>
        have hse : s0 = s ∧ e0 = e := by
          have : some (s0, e0) = some (s, e) := by simpa using hk
          simp at this
          exact this
        obtain ⟨hs, he⟩ := hse
        rw [← hs, ← he]
        have hzero : bid + 0 = bid := rfl
        rw [hzero]
        have hagree : ∀ i : Nat, (timeFilter times s0 e0)[i]? = some true →
            res[i]? = (maskFill out (timeFilter times s0 e0)
              (maskSelect y_pred (pidMask test_pids bid)))[i]? := by
          intro i hi
          apply hpres i
          intro b hb t ht
          rw [timeFilter_getElem?, ht] at hi
          simp only [Option.map_some', Option.some_inj] at hi
          have hd := hhead b hb t
          by_contra hbt
          rw [Bool.not_eq_false] at hbt
          exact hd ⟨hi, hbt⟩
        have hcongr : maskSelect res (timeFilter times s0 e0)
            = maskSelect (maskFill out (timeFilter times s0 e0)
                (maskSelect y_pred (pidMask test_pids bid)))
                (timeFilter times s0 e0) := by
          apply maskSelect_congr
          · rw [hreslen, hout2]
          · exact hagree
        rw [hcongr]
        exact maskSelect_maskFill out (timeFilter times s0 e0)
          (maskSelect y_pred (pidMask test_pids bid))
          (by rw [htf_len, hout]) hvals
      | succ k' =>
        have hk' : bs'[k']? = some (s, e) := by simpa using hk
        have := hsel k' s e hk'
        rw [show (bid + 1) + k' = bid + (k' + 1) from by omega] at this
        exact this

/-- C2: the stitched full-resolution label array has exactly one entry per
epoch of the input series; an epoch whose timestamp lies in no sleep block's
[start, end) keeps the coarse classifier's original binary label, and an
epoch inside a block receives the block's refined predictions aligned in
order to the block's epochs (series order, which is chronological since the
series is strictly increasing).  Hypotheses: the series and label array have
equal length, the second model returns per-block prediction counts matching
the block epoch counts, and the blocks are pairwise disjoint. -/
theorem stitch_spec (blocks : List (Int × Int)) (times binary_y y_pred : List Int)
    (test_pids : List Nat)
    (hby : binary_y.length = times.length)
    (hlen : y_pred.length = test_pids.length)
    (hchron : List.Chain' (fun a b => a < b) times)
    (hcnt : ∀ k s e, blocks[k]? = some (s, e) →
      (maskSelect y_pred (pidMask test_pids k)).length
        = countTrue (timeFilter times s e))
    (hdisj : List.Pairwise (fun b1 b2 => ∀ t : Int,
      ¬(inBlockB b1 t = true ∧ inBlockB b2 t = true)) blocks) :
    ∃ out, stitch blocks times binary_y y_pred test_pids = some out ∧
      out.length = times.length ∧
      (∀ i : Nat, ∀ t : Int, times[i]? = some t →
        (∀ b ∈ blocks, inBlockB b t = false) → out[i]? = binary_y[i]?) ∧
      (∀ k s e, blocks[k]? = some (s, e) →
        maskSelect out (timeFilter times s e)
          = maskSelect y_pred (pidMask test_pids k)) := by
  obtain ⟨res, hres, hlen2, hpres, hsel⟩ :=
    stitchBlocks_sound times y_pred test_pids hlen blocks 0 binary_y hby
      (fun k s e hk => by simpa using hcnt k s e hk) hdisj
  refine ⟨res, hres, hlen2, ?_, ?_⟩
  · intro i t ht hmiss
    apply hpres i
    intro b hb t' ht'
    have htt : t' = t := by
      rw [ht] at ht'
      exact (Option.some_inj.mp ht').symm
    rw [htt]
    exact hmiss b hb
  · intro k s e hk
    have := hsel k s e hk
    simpa using this

/-- C2 witness: one block [1, 3) over the four epochs 0..3 with two refined
predictions; the stitched array keeps the coarse labels outside the block and
carries the refined predictions inside it. -/
theorem stitch_spec_witness :
    ∃ out, stitch [(1, 3)] [0, 1, 2, 3] [9, 9, 9, 9] [7, 8] [0, 0] = some out ∧
      out.length = ([0, 1, 2, 3] : List Int).length ∧
      (∀ i : Nat, ∀ t : Int, ([0, 1, 2, 3] : List Int)[i]? = some t →
        (∀ b ∈ [((1 : Int), (3 : Int))], inBlockB b t = false) →
        out[i]? = ([9, 9, 9, 9] : List Int)[i]?) ∧
      (∀ k s e, ([((1 : Int), (3 : Int))])[k]? = some (s, e) →
        maskSelect out (timeFilter [0, 1, 2, 3] s e)
          = maskSelect [7, 8] (pidMask [0, 0] k)) :=
  stitch_spec [(1, 3)] [0, 1, 2, 3] [9, 9, 9, 9] [7, 8] [0, 0]
    (by decide) (by decide)
    (by norm_num [List.chain'_cons, List.chain'_singleton])
    (by
      intro k s e hk
      cases k with
      | zero =>
        have hse : (1, 3) = ((s : Int), (e : Int)) := by simpa using hk
        have hs : s = 1 := by
          have := congrArg Prod.fst hse
          simpa using this.symm
        have he : e = 3 := by
          have := congrArg Prod.snd hse
          simpa using this.symm
        rw [hs, he]
        decide
      | succ n => simp at hk)
    (List.pairwise_singleton _ _)

theorem get_master_go_eq (times acc : List Int) (hacc : acc.length = times.length) :
    ∀ (bs : List (Int × Int)) (idx : Nat) (macc : List Int) (mpids : List Nat),
    (mpids = [] → macc = []) →
    get_master_go times acc idx bs (macc, mpids)
      = (macc ++ (bs.map (fun b => maskSelect acc (timeFilter times b.1 b.2))).flatten,
         mpids ++ ((bs.enumFrom idx).map (fun p =>
           List.replicate (countTrue (timeFilter times p.2.1 p.2.2)) p.1)).flatten) := by
  intro bs
  induction bs with
  | nil =>
    intro idx macc mpids _
    simp [get_master_go]
  | cons b bs' ih =>
    intro idx macc mpids hinv
    obtain ⟨s, e⟩ := b
    have hsel_len : (maskSelect acc (timeFilter times s e)).length
        = countTrue (timeFilter times s e) :=
      maskSelect_length acc _ (by rw [timeFilter_length, hacc])
    by_cases hmp : mpids.length = 0
    · have hmpe : mpids = [] := List.length_eq_zero.mp hmp
      have hmacc : macc = [] := hinv hmpe
      subst hmpe
      subst hmacc
      have hstep : get_master_go times acc idx ((s, e) :: bs') ([], [])
          = get_master_go times acc (idx + 1) bs'
              (maskSelect acc (timeFilter times s e),
               List.replicate (countTrue (timeFilter times s e)) idx) := by
        simp [get_master_go]
      rw [hstep]
      have hinv2 : List.replicate (countTrue (timeFilter times s e)) idx = [] →
          maskSelect acc (timeFilter times s e) = [] := by
        intro hrep
        have hct : countTrue (timeFilter times s e) = 0 := by
          have := congrArg List.length hrep
          simpa using this
        rw [← List.length_eq_zero, hsel_len, hct]
      rw [ih (idx + 1) _ _ hinv2]
      simp [List.flatten, List.enumFrom_cons]
    · have hstep : get_master_go times acc idx ((s, e) :: bs') (macc, mpids)
          = get_master_go times acc (idx + 1) bs'
              (macc ++ maskSelect acc (timeFilter times s e),
               mpids ++ List.replicate (countTrue (timeFilter times s e)) idx) := by
        simp [get_master_go, hmp]
      rw [hstep]
      have hinv2 : mpids ++ List.replicate (countTrue (timeFilter times s e)) idx = [] →
          macc ++ maskSelect acc (timeFilter times s e) = [] := by
        intro hrep
        exact absurd (List.append_eq_nil.mp hrep).1
          (fun h => hmp (by rw [h]; rfl))
      rw [ih (idx + 1) _ _ hinv2]
      simp [List.flatten, List.enumFrom_cons, List.append_assoc]

theorem filter_or_length {α : Type} (l : List α) (p q : α → Bool)
    (h : ∀ x ∈ l, ¬(p x = true ∧ q x = true)) :
    (l.filter (fun x => p x || q x)).length
      = (l.filter p).length + (l.filter q).length := by
  induction l with
  | nil => rfl
  | cons x xs ih =>
    have h' : ∀ y ∈ xs, ¬(p y = true ∧ q y = true) :=
      fun y hy => h y (List.mem_cons_of_mem _ hy)
    by_cases hp : p x = true
    · have hq : q x = false := by
        cases hqq : q x with
        | false => rfl
        | true => exact absurd ⟨hp, hqq⟩ (h x (List.mem_cons_self _ _))
      simp [List.filter_cons, hp, hq, ih h']
      omega
    · have hp' : p x = false := by
        cases hpp : p x with
        | false => rfl
        | true => exact absurd hpp hp
      by_cases hq : q x = true
      · simp [List.filter_cons, hp', hq, ih h']
        omega
      · have hq' : q x = false := by
          cases hqq : q x with
          | false => rfl
          | true => exact absurd hqq hq
        simp [List.filter_cons, hp', hq', ih h']

theorem joined_pids_length (times : List Int) :
    ∀ (bs : List (Int × Int)) (idx : Nat),
    List.Pairwise (fun b1 b2 => ∀ t : Int,
      ¬(inBlockB b1 t = true ∧ inBlockB b2 t = true)) bs →
    (((bs.enumFrom idx).map (fun p =>
        List.replicate (countTrue (timeFilter times p.2.1 p.2.2)) p.1)).flatten).length
      = (times.filter (fun t => bs.any (fun b => inBlockB b t))).length := by
  intro bs
  induction bs with
  | nil =>
    intro idx _
    simp
  | cons b bs' ih =>
    intro idx hp
    obtain ⟨hhead, htail⟩ := List.pairwise_cons.mp hp
    obtain ⟨s, e⟩ := b
    have hdisj : ∀ t ∈ times,
        ¬(inBlockB (s, e) t = true ∧ (bs'.any (fun b' => inBlockB b' t)) = true) := by
      rintro t - ⟨h1, h2⟩
      obtain ⟨b', hb', hbt⟩ := List.any_eq_true.mp h2
      exact hhead b' hb' t ⟨h1, hbt⟩
    have hsplit : (times.filter (fun t =>
        inBlockB (s, e) t || bs'.any (fun b' => inBlockB b' t))).length
        = (times.filter (fun t => inBlockB (s, e) t)).length
          + (times.filter (fun t => bs'.any (fun b' => inBlockB b' t))).length :=
      filter_or_length times _ _ hdisj
    have hany : (fun t => ((s, e) :: bs').any (fun b' => inBlockB b' t))
        = (fun t => inBlockB (s, e) t || bs'.any (fun b' => inBlockB b' t)) := by
      funext t
      simp [List.any_cons]
    rw [hany]
    rw [hsplit]
    have hhead_len : (List.replicate (countTrue (timeFilter times s e)) idx).length
        = (times.filter (fun t => inBlockB (s, e) t)).length := by
      rw [List.length_replicate, countTrue_timeFilter]
    simp only [List.enumFrom_cons, List.map_cons, List.flatten_cons, List.length_append]
    rw [hhead_len, ih (idx + 1) htail]

/-- C5: for every row index i of the sleep block table, get_master_df assigns
block id i to exactly the epochs whose timestamp t satisfies start_i <= t <
end_i; within each block the extracted epoch data is the sub-sequence of the
series (chronological, since the series is strictly increasing), blocks are
concatenated in table-row order, and the mapping's length equals the total
number of epochs covered by blocks. -/
theorem get_master_df_spec (blocks : List (Int × Int)) (times acc : List Int)
    (hacc : acc.length = times.length)
    (hchron : List.Chain' (fun a b => a < b) times)
    (hdisj : List.Pairwise (fun b1 b2 => ∀ t : Int,
      ¬(inBlockB b1 t = true ∧ inBlockB b2 t = true)) blocks) :
    (get_master_df blocks times acc).1
        = (blocks.map (fun b =>
            ((times.zip acc).filter (fun p => inBlockB b p.1)).map Prod.snd)).flatten ∧
    (get_master_df blocks times acc).2
        = (blocks.enum.map (fun p =>
            List.replicate ((times.filter (inBlockB p.2)).length) p.1)).flatten ∧
    (get_master_df blocks times acc).2.length
        = (times.filter (fun t => blocks.any (fun b => inBlockB b t))).length := by
  have hgo := get_master_go_eq times acc hacc blocks 0 [] [] (fun _ => rfl)
  have h1 : (get_master_df blocks times acc).1
      = (blocks.map (fun b => maskSelect acc (timeFilter times b.1 b.2))).flatten := by
    unfold get_master_df
    rw [hgo]
    simp
  have h2 : (get_master_df blocks times acc).2
      = ((blocks.enumFrom 0).map (fun p =>
          List.replicate (countTrue (timeFilter times p.2.1 p.2.2)) p.1)).flatten := by
    unfold get_master_df
    rw [hgo]
    simp
  refine ⟨?_, ?_, ?_⟩
  · rw [h1]
    have : (fun (b : Int × Int) => maskSelect acc (timeFilter times b.1 b.2))
        = (fun b => ((times.zip acc).filter (fun p => inBlockB b p.1)).map Prod.snd) := by
      funext b
      obtain ⟨s, e⟩ := b
      exact maskSelect_timeFilter times acc s e hacc
    rw [this]
  · rw [h2]
    have : (fun (p : Nat × (Int × Int)) =>
          List.replicate (countTrue (timeFilter times p.2.1 p.2.2)) p.1)
        = (fun p => List.replicate ((times.filter (inBlockB p.2)).length) p.1) := by
      funext p
      obtain ⟨i, s, e⟩ := p
      rw [countTrue_timeFilter]
    rw [this]
    rfl
  · rw [h2]
    exact joined_pids_length times blocks 0 hdisj

/-- C5 witness: two disjoint blocks over five epochs; ids 0 and 1 are each
assigned to exactly the two epochs of their block, in order. -/
theorem get_master_df_spec_witness :
    (get_master_df [(0, 2), (3, 5)] [0, 1, 2, 3, 4] [10, 11, 12, 13, 14]).1
        = ([(0, 2), (3, 5)].map (fun b =>
            (([0, 1, 2, 3, 4].zip [10, 11, 12, 13, 14]).filter
              (fun p => inBlockB b p.1)).map Prod.snd)).flatten ∧
    (get_master_df [(0, 2), (3, 5)] [0, 1, 2, 3, 4] [10, 11, 12, 13, 14]).2
        = (([((0 : Int), (2 : Int)), (3, 5)].enum).map (fun p =>
            List.replicate (([0, 1, 2, 3, 4].filter (inBlockB p.2)).length) p.1)).flatten ∧
    (get_master_df [(0, 2), (3, 5)] [0, 1, 2, 3, 4] [10, 11, 12, 13, 14]).2.length
        = (([0, 1, 2, 3, 4] : List Int).filter
            (fun t => [((0 : Int), (2 : Int)), (3, 5)].any (fun b => inBlockB b t))).length :=
  get_master_df_spec [(0, 2), (3, 5)] [0, 1, 2, 3, 4] [10, 11, 12, 13, 14]
    (by decide)
    (by norm_num [List.chain'_cons, List.chain'_singleton])
    (by
      constructor
      · intro b hb t hbt
        obtain ⟨h1, h2⟩ := hbt
        have hb' : b = (3, 5) := by simpa using hb
        rw [hb'] at h2
        simp [inBlockB] at h1 h2
        omega
      · exact List.pairwise_singleton _ _)

theorem fillFrom_false : ∀ (i : Nat) (s : List (Int × Bool)),
    fillFrom (fun _ => false) i s = s := by
  intro i s
  induction s generalizing i with
  | nil => rfl
  | cons e es ih => simp [fillFrom, ih]

theorem fillFrom_congr (c1 c2 : Nat → Bool) (h : ∀ j, c1 j = c2 j) :
    ∀ (i : Nat) (s : List (Int × Bool)), fillFrom c1 i s = fillFrom c2 i s := by
  intro i s
  induction s generalizing i with
  | nil => rfl
  | cons e es ih => simp [fillFrom, h i, ih]

theorem fillFrom_fillFrom (c1 c2 : Nat → Bool) :
    ∀ (i : Nat) (s : List (Int × Bool)),
    fillFrom c1 i (fillFrom c2 i s) = fillFrom (fun j => c1 j || c2 j) i s := by
  intro i s
  induction s generalizing i with
  | nil => rfl
  | cons e es ih =>
    by_cases h1 : c1 i = true <;> by_cases h2 : c2 i = true <;>
      simp [fillFrom, h1, h2, ih]

theorem foldl_fill_eq_fill_gaps :
    ∀ (gs : List Seg) (series : List (Int × Bool)),
    gs.foldl (fun s g => fill_one_gap g s) series = fill_gaps series gs := by
  intro gs
  induction gs with
  | nil =>
    intro series
    unfold fill_gaps
    simp only [List.foldl_nil, List.any_nil]
    exact (fillFrom_false 0 series).symm
  | cons g gs' ih =>
    intro series
    rw [List.foldl_cons, ih]
    unfold fill_gaps fill_one_gap
    rw [fillFrom_fillFrom]
    apply fillFrom_congr
    intro j
    simp [List.any_cons, Bool.or_comm]

theorem fill_gaps_perm (series : List (Int × Bool)) (gs1 gs2 : List Seg)
    (h : gs1.Perm gs2) : fill_gaps series gs1 = fill_gaps series gs2 := by
  unfold fill_gaps
  apply fillFrom_congr
  intro j
  have hiff : (gs1.any (fun g => inSeg g j) = true)
      ↔ (gs2.any (fun g => inSeg g j) = true) := by
    constructor
    · intro ha
      obtain ⟨g, hg, hgj⟩ := List.any_eq_true.mp ha
      exact List.any_eq_true.mpr ⟨g, h.mem_iff.mp hg, hgj⟩
    · intro ha
      obtain ⟨g, hg, hgj⟩ := List.any_eq_true.mp ha
      exact List.any_eq_true.mpr ⟨g, h.mem_iff.mpr hg, hgj⟩
  cases ha : gs1.any (fun g => inSeg g j) with
  | true => exact (hiff.mp ha).symm
  | false =>
    cases hb : gs2.any (fun g => inSeg g j) with
    | false => rfl
    | true =>
      rw [hiff.mpr hb] at ha
      exact ha.symm

/-- C6: the Gap Merger's result is independent of the order in which the
individual gaps are evaluated: filling, one at a time and in any order, the
gaps computed from the original block boundaries (non-sleep segments strictly
between two valid sleep blocks whose duration is strictly below the
threshold) yields exactly the series produced by relabelling all those gaps'
epochs to sleep in a single pass. -/
theorem gap_merger_order_independent (series : List (Int × Bool))
    (epoch_len min_dur thresh : Nat) (gs : List Seg)
    (hperm : gs.Perm (find_gaps2fill series epoch_len min_dur thresh)) :
    gs.foldl (fun s g => fill_one_gap g s) series
      = fill_gaps series (find_gaps2fill series epoch_len min_dur thresh) := by
  rw [foldl_fill_eq_fill_gaps]
  exact fill_gaps_perm series _ _ hperm

/-- C6 witness: an 8-epoch series (sleep, sleep, wake, sleep, sleep, non-wear,
sleep, sleep) with threshold 2 epochs yields two fillable gaps; evaluating
them in reversed order produces the same revised series as the single
simultaneous pass. -/
theorem gap_merger_order_independent_witness :
    (find_gaps2fill [(1, true), (1, true), (0, true), (1, true), (1, true),
        (0, false), (1, true), (1, true)] 1 0 2).reverse.Perm
      (find_gaps2fill [(1, true), (1, true), (0, true), (1, true), (1, true),
        (0, false), (1, true), (1, true)] 1 0 2) ∧
    (find_gaps2fill [(1, true), (1, true), (0, true), (1, true), (1, true),
        (0, false), (1, true), (1, true)] 1 0 2).reverse.foldl
        (fun s g => fill_one_gap g s)
        [(1, true), (1, true), (0, true), (1, true), (1, true),
          (0, false), (1, true), (1, true)]
      = fill_gaps [(1, true), (1, true), (0, true), (1, true), (1, true),
          (0, false), (1, true), (1, true)]
          (find_gaps2fill [(1, true), (1, true), (0, true), (1, true), (1, true),
            (0, false), (1, true), (1, true)] 1 0 2) :=
  ⟨List.reverse_perm _,
    gap_merger_order_independent
      [(1, true), (1, true), (0, true), (1, true), (1, true),
        (0, false), (1, true), (1, true)] 1 0 2 _ (List.reverse_perm _)⟩

theorem betterBlock_trans (a b c : SleepBlockRow)
    (h1 : betterBlock a b = true) (h2 : betterBlock b c = true) :
    betterBlock a c = true := by
  simp only [betterBlock, blockDuration, Bool.or_eq_true, Bool.and_eq_true,
    decide_eq_true_eq] at h1 h2 ⊢
  omega

theorem betterBlock_false_trans (a b c : SleepBlockRow)
    (h1 : betterBlock a b = false) (h2 : betterBlock b c = false) :
    betterBlock a c = false := by
  simp only [betterBlock, blockDuration, Bool.or_eq_false_iff,
    Bool.and_eq_false_iff, decide_eq_false_iff_not, not_lt] at h1 h2 ⊢
  omega

theorem betterBlock_irrefl (a : SleepBlockRow) : betterBlock a a = false := by
  simp only [betterBlock, blockDuration, Bool.or_eq_false_iff,
    Bool.and_eq_false_iff, decide_eq_false_iff_not, not_lt]
  omega

theorem betterBlock_false_elim (x m : SleepBlockRow)
    (h : betterBlock x m = false) :
    blockDuration x ≤ blockDuration m ∧
      (blockDuration x = blockDuration m → m.start ≤ x.start) := by
  simp only [betterBlock, blockDuration, Bool.or_eq_false_iff,
    Bool.and_eq_false_iff, decide_eq_false_iff_not, not_lt] at h
  simp only [blockDuration]
  omega

theorem pickLongest_spec : ∀ (rs : List SleepBlockRow) (r : SleepBlockRow),
    ∃ m, pickLongest (r :: rs) = some m ∧ m ∈ r :: rs ∧
      ∀ x ∈ r :: rs, betterBlock x m = false := by
  intro rs
  induction rs with
  | nil =>
    intro r
    refine ⟨r, rfl, List.mem_cons_self _ _, ?_⟩
    intro x hx
    have hxr : x = r := by simpa using hx
    rw [hxr]
    exact betterBlock_irrefl r
  | cons y ys ih =>
    intro r
    obtain ⟨m, hm, hmem, hall⟩ := ih (if betterBlock y r then y else r)
    have hstep : pickLongest (r :: y :: ys)
        = pickLongest ((if betterBlock y r then y else r) :: ys) := by
      simp [pickLongest, List.foldl_cons]
    refine ⟨m, by rw [hstep]; exact hm, ?_, ?_⟩
    · rcases List.mem_cons.mp hmem with hms | hms
      · by_cases hyr : betterBlock y r = true
        · rw [if_pos hyr] at hms
          rw [hms]
          exact List.mem_cons_of_mem _ (List.mem_cons_self _ _)
        · rw [if_neg hyr] at hms
          rw [hms]
          exact List.mem_cons_self _ _
      · exact List.mem_cons_of_mem _ (List.mem_cons_of_mem _ hms)
    · intro x hx
      have hstepfalse : betterBlock (if betterBlock y r then y else r) m = false :=
        hall _ (List.mem_cons_self _ _)
      rcases List.mem_cons.mp hx with hxr | hx'
      · by_cases hyr : betterBlock y r = true
        · rw [if_pos hyr] at hstepfalse
          rw [hxr]
          cases hrm : betterBlock r m with
          | false => rfl
          | true =>
            have := betterBlock_trans y r m hyr hrm
            rw [this] at hstepfalse
            exact hstepfalse
        · rw [if_neg hyr] at hstepfalse
          rw [hxr]
          exact hstepfalse
      · rcases List.mem_cons.mp hx' with hxy | hxys
        · by_cases hyr : betterBlock y r = true
          · rw [if_pos hyr] at hstepfalse
            rw [hxy]
            exact hstepfalse
          · rw [if_neg hyr] at hstepfalse
            have hyrf : betterBlock y r = false := by
              cases hh : betterBlock y r with
              | false => rfl
              | true => exact absurd hh hyr
            rw [hxy]
            exact betterBlock_false_trans y r m hyrf hstepfalse
        · exact hall x (List.mem_cons_of_mem _ hxys)

theorem pickLongest_mem_best (l : List SleepBlockRow) (m : SleepBlockRow)
    (hl : pickLongest l = some m) :
    m ∈ l ∧ ∀ x ∈ l, betterBlock x m = false := by
  cases l with
  | nil => simp [pickLongest] at hl
  | cons r rs =>
    obtain ⟨m', hm', hmem, hall⟩ := pickLongest_spec rs r
    rw [hl] at hm'
    have hmm : m = m' := Option.some_inj.mp hm'
    rw [hmm]
    exact ⟨hmem, hall⟩

theorem setFlag_start (b : Bool) (r : SleepBlockRow) : (setFlag b r).start = r.start := rfl

theorem setFlag_end (b : Bool) (r : SleepBlockRow) : (setFlag b r).end_ = r.end_ := rfl

theorem setFlag_interval (b : Bool) (r : SleepBlockRow) :
    (setFlag b r).interval_start = r.interval_start := rfl

theorem setFlag_flag (b : Bool) (r : SleepBlockRow) :
    (setFlag b r).is_longest_block = b := rfl

theorem mark_step_map (L : List (Int × Int)) :
    ∀ tb : List SleepBlockRow,
    L.foldl (fun tb2 le => tb2.map (fun r =>
        if r.start = le.1 ∧ r.end_ = le.2 then setFlag true r else r)) tb
      = tb.map (fun r => if (r.start, r.end_) ∈ L then setFlag true r else r) := by
  induction L with
  | nil =>
    intro tb
    simp
  | cons le L' ih =>
    intro tb
    rw [List.foldl_cons, ih, List.map_map]
    have hfun : ((fun r => if (r.start, r.end_) ∈ L' then setFlag true r else r) ∘
          (fun r => if r.start = le.1 ∧ r.end_ = le.2 then setFlag true r else r))
        = fun r => if (r.start, r.end_) ∈ le :: L' then setFlag true r else r := by
      funext r
      by_cases hm : r.start = le.1 ∧ r.end_ = le.2
      · have hpair : (r.start, r.end_) = le := by
          obtain ⟨h1, h2⟩ := hm
          obtain ⟨a, b⟩ := le
          simp only [Prod.mk.injEq]
          exact ⟨h1, h2⟩
        simp only [Function.comp_apply, if_pos hm, setFlag_start, setFlag_end, hpair]
        by_cases hm' : le ∈ L'
        · rw [if_pos hm', if_pos (List.mem_cons_self _ _)]
          rfl
        · rw [if_neg hm', if_pos (List.mem_cons_self _ _)]
      · have hpair : (r.start, r.end_) ≠ le := by
          intro hcontra
          obtain ⟨a, b⟩ := le
          simp only [Prod.mk.injEq] at hcontra
          exact hm hcontra
        simp only [Function.comp_apply, if_neg hm]
        by_cases hm' : (r.start, r.end_) ∈ L'
        · rw [if_pos hm', if_pos (List.mem_cons_of_mem _ hm')]
        · rw [if_neg hm', if_neg (by
            intro hcontra
            rcases List.mem_cons.mp hcontra with hc | hc
            · exact hpair hc
            · exact hm' hc)]
    rw [hfun]

theorem mark_longest_eq (table : List SleepBlockRow) (L : List (Int × Int)) :
    mark_longest table L
      = table.map (fun r => setFlag (decide ((r.start, r.end_) ∈ L)) r) := by
  unfold mark_longest
  rw [mark_step_map, List.map_map]
  have hfun : ((fun r => if (r.start, r.end_) ∈ L then setFlag true r else r) ∘
        setFlag false)
      = fun r => setFlag (decide ((r.start, r.end_) ∈ L)) r := by
    funext r
    simp only [Function.comp_apply, setFlag_start, setFlag_end]
    by_cases hm : (r.start, r.end_) ∈ L
    · rw [if_pos hm, decide_eq_true hm]
      rfl
    · rw [if_neg hm]
      have : decide ((r.start, r.end_) ∈ L) = false := decide_eq_false hm
      rw [this]
  rw [hfun]

theorem filter_eq_singleton {α : Type} (l : List α) (p : α → Bool) (a : α)
    (hnd : l.Nodup) (ha : a ∈ l) (hpa : p a = true)
    (huniq : ∀ b ∈ l, p b = true → b = a) : l.filter p = [a] := by
  induction l with
  | nil => simp at ha
  | cons x xs ih =>
    obtain ⟨hxnotin, hndxs⟩ := List.nodup_cons.mp hnd
    rcases List.mem_cons.mp ha with hax | hax
    · have hxs : xs.filter p = [] := by
        rw [List.filter_eq_nil_iff]
        intro b hb hpb
        have hba : b = a := huniq b (List.mem_cons_of_mem _ hb) hpb
        rw [hba, hax] at hb
        exact hxnotin hb
      rw [← hax]
      simp [List.filter_cons, hpa, hxs]
    · have hpx : p x = false := by
        cases hpxx : p x with
        | false => rfl
        | true =>
          have hxa : x = a := huniq x (List.mem_cons_self _ _) hpxx
          rw [hxa] at hxnotin
          exact absurd hax hxnotin
      have := ih hndxs hax (fun b hb hpb => huniq b (List.mem_cons_of_mem _ hb) hpb)
      simp [List.filter_cons, hpx, this]

theorem longest_entry_elim (table : List SleepBlockRow)
    (intervals : List (Int × Int)) (p : Int × Int)
    (hp : p ∈ longest_per_interval table intervals) :
    ∃ iv ∈ intervals, ∃ m, pickLongest (table.filter
        (fun q => decide (q.interval_start = iv.1))) = some m ∧
      p = (m.start, m.end_) ∧ m ∈ table ∧ m.interval_start = iv.1 := by
  unfold longest_per_interval at hp
  obtain ⟨iv, hiv, hf⟩ := List.mem_filterMap.mp hp
  obtain ⟨m, hm, hpair⟩ := Option.map_eq_some'.mp hf
  obtain ⟨hmem, -⟩ := pickLongest_mem_best _ m hm
  have hmemtab : m ∈ table := List.mem_of_mem_filter hmem
  have hmint : m.interval_start = iv.1 := by
    have := List.of_mem_filter hmem
    simpa using this
  exact ⟨iv, hiv, m, hm, hpair.symm, hmemtab, hmint⟩

theorem marked_row_unique (table : List SleepBlockRow)
    (intervals : List (Int × Int))
    (hpairs : (table.map (fun r => (r.start, r.end_))).Nodup)
    (r : SleepBlockRow) (hr : r ∈ table)
    (hmem : (r.start, r.end_) ∈ longest_per_interval table intervals) :
    ∃ iv ∈ intervals, r.interval_start = iv.1 ∧
      pickLongest (table.filter
        (fun q => decide (q.interval_start = iv.1))) = some r := by
  obtain ⟨iv, hivmem, m, hpick, hpair, hmtab, hmint⟩ :=
    longest_entry_elim table intervals _ hmem
  have hrm : r = m :=
    List.inj_on_of_nodup_map hpairs hr hmtab hpair
  rw [hrm]
  exact ⟨iv, hivmem, hmint, hpick⟩

/-- C4: after longest-block marking, for every night interval containing at
least one sleep-block row, exactly one row of the sleep block table assigned
to that interval carries is_longest_block = true — the row whose (start, end)
pair is the interval's entry in the per-night longest-block table, i.e. the
row of maximum duration with ties broken by earliest start — and every other
row of the table carries is_longest_block = false; an interval with zero
assigned rows has no marked row.  Hypotheses: (start, end) pairs are unique
across the table and interval start times are distinct. -/
theorem longest_block_marking (table : List SleepBlockRow)
    (intervals : List (Int × Int))
    (hpairs : (table.map (fun r => (r.start, r.end_))).Nodup)
    (hiv : (intervals.map Prod.fst).Nodup) :
    (∀ r ∈ mark_longest table (longest_per_interval table intervals),
        r.is_longest_block = true →
        ∃ iv ∈ intervals, ∃ m, pickLongest (table.filter
            (fun q => decide (q.interval_start = iv.1))) = some m ∧
          r = setFlag true m) ∧
    (∀ iv ∈ intervals,
      (table.filter (fun q => decide (q.interval_start = iv.1)) = [] →
        (mark_longest table (longest_per_interval table intervals)).filter
          (fun q => decide (q.interval_start = iv.1) && q.is_longest_block) = []) ∧
      (table.filter (fun q => decide (q.interval_start = iv.1)) ≠ [] →
        ∃ m, pickLongest (table.filter (fun q => decide (q.interval_start = iv.1)))
            = some m ∧
          (mark_longest table (longest_per_interval table intervals)).filter
            (fun q => decide (q.interval_start = iv.1) && q.is_longest_block)
            = [setFlag true m] ∧
          (m.start, m.end_) ∈ longest_per_interval table intervals ∧
          ∀ q ∈ table.filter (fun q2 => decide (q2.interval_start = iv.1)),
            blockDuration q ≤ blockDuration m ∧
            (blockDuration q = blockDuration m → m.start ≤ q.start))) := by
  have hmark := mark_longest_eq table (longest_per_interval table intervals)
  constructor
  · intro r hr hflag
    rw [hmark] at hr
    obtain ⟨r0, hr0tab, hr0⟩ := List.mem_map.mp hr
    have hdec : decide ((r0.start, r0.end_)
        ∈ longest_per_interval table intervals) = true := by
      rw [← hr0] at hflag
      simpa [setFlag_flag] using hflag
    have hmem := of_decide_eq_true hdec
    obtain ⟨iv, hivmem, hint, hpick⟩ :=
      marked_row_unique table intervals hpairs r0 hr0tab hmem
    refine ⟨iv, hivmem, r0, hpick, ?_⟩
    rw [← hr0, hdec]
  · intro iv hivmem
    constructor
    · intro hempty
      rw [hmark, List.filter_map]
      have hnil : table.filter
          ((fun q => decide (q.interval_start = iv.1) && q.is_longest_block) ∘
            (fun r => setFlag (decide ((r.start, r.end_)
              ∈ longest_per_interval table intervals)) r)) = [] := by
        rw [List.filter_eq_nil_iff]
        intro b hb hcontra
        simp only [Function.comp_apply, setFlag_interval, setFlag_flag,
          Bool.and_eq_true, decide_eq_true_eq] at hcontra
        obtain ⟨hbint, -⟩ := hcontra
        have hbf : b ∈ table.filter (fun q => decide (q.interval_start = iv.1)) :=
          List.mem_filter.mpr ⟨hb, by simpa using hbint⟩
        rw [hempty] at hbf
        simp at hbf
      rw [hnil]
      rfl
    · intro hne
      obtain ⟨r0, rest, hfl⟩ := List.exists_cons_of_ne_nil hne
      obtain ⟨m, hm0, hmem0, hall0⟩ := pickLongest_spec rest r0
      have hm : pickLongest (table.filter
          (fun q => decide (q.interval_start = iv.1))) = some m := by
        rw [hfl]
        exact hm0
      have hmem : m ∈ table.filter (fun q => decide (q.interval_start = iv.1)) := by
        rw [hfl]
        exact hmem0
      have hall : ∀ x ∈ table.filter (fun q => decide (q.interval_start = iv.1)),
          betterBlock x m = false := by
        rw [hfl]
        exact hall0
      have hmtab : m ∈ table := List.mem_of_mem_filter hmem
      have hmint : m.interval_start = iv.1 := by
        have := List.of_mem_filter hmem
        simpa using this
      have hpairm : (m.start, m.end_) ∈ longest_per_interval table intervals := by
        unfold longest_per_interval
        apply List.mem_filterMap.mpr
        refine ⟨iv, hivmem, ?_⟩
        rw [hm]
        rfl
      have hsingle : table.filter (fun r => decide (r.interval_start = iv.1) &&
          decide ((r.start, r.end_) ∈ longest_per_interval table intervals))
          = [m] := by
        apply filter_eq_singleton _ _ m (List.Nodup.of_map _ hpairs) hmtab
        · simp only [Bool.and_eq_true, decide_eq_true_eq]
          exact ⟨hmint, hpairm⟩
        · intro b hb hpb
          simp only [Bool.and_eq_true, decide_eq_true_eq] at hpb
          obtain ⟨hbint, hbpair⟩ := hpb
          obtain ⟨iv2, hiv2mem, hint2, hpick2⟩ :=
            marked_row_unique table intervals hpairs b hb hbpair
          have hfst : iv2.1 = iv.1 := by rw [← hint2, hbint]
          have hiveq : iv2 = iv := List.inj_on_of_nodup_map hiv hiv2mem hivmem hfst
          rw [hiveq] at hpick2
          rw [hm] at hpick2
          exact (Option.some_inj.mp hpick2).symm
      refine ⟨m, hm, ?_, hpairm, ?_⟩
      · rw [hmark, List.filter_map]
        have hcomp : ((fun q => decide (q.interval_start = iv.1) && q.is_longest_block) ∘
              (fun r => setFlag (decide ((r.start, r.end_)
                ∈ longest_per_interval table intervals)) r))
            = fun r => decide (r.interval_start = iv.1) &&
                decide ((r.start, r.end_) ∈ longest_per_interval table intervals) := by
          funext r
          simp [Function.comp_apply, setFlag_interval, setFlag_flag]
        rw [hcomp, hsingle]
        have hdec : decide ((m.start, m.end_)
            ∈ longest_per_interval table intervals) = true := decide_eq_true hpairm
        simp [hdec]
      · intro q hq
        exact betterBlock_false_elim q m (hall q hq)

/-- C4 witness: a single night interval with two rows; the longer row [4, 9)
is the unique marked row after marking. -/
theorem longest_block_marking_witness :
    ((([⟨0, 3, 0, 10, 2, false⟩, ⟨4, 9, 0, 10, 2, false⟩] : List SleepBlockRow).map (fun r => (r.start, r.end_))).Nodup) ∧
    ((([(0, 10)] : List (Int × Int)).map Prod.fst).Nodup) ∧
    ((∀ r ∈ mark_longest ([⟨0, 3, 0, 10, 2, false⟩, ⟨4, 9, 0, 10, 2, false⟩] : List SleepBlockRow) (longest_per_interval ([⟨0, 3, 0, 10, 2, false⟩, ⟨4, 9, 0, 10, 2, false⟩] : List SleepBlockRow) ([(0, 10)] : List (Int × Int))),
        r.is_longest_block = true →
        ∃ iv ∈ ([(0, 10)] : List (Int × Int)), ∃ m, pickLongest (([⟨0, 3, 0, 10, 2, false⟩, ⟨4, 9, 0, 10, 2, false⟩] : List SleepBlockRow).filter
            (fun q => decide (q.interval_start = iv.1))) = some m ∧
          r = setFlag true m) ∧
    (∀ iv ∈ ([(0, 10)] : List (Int × Int)),
      (([⟨0, 3, 0, 10, 2, false⟩, ⟨4, 9, 0, 10, 2, false⟩] : List SleepBlockRow).filter (fun q => decide (q.interval_start = iv.1)) = [] →
        (mark_longest ([⟨0, 3, 0, 10, 2, false⟩, ⟨4, 9, 0, 10, 2, false⟩] : List SleepBlockRow) (longest_per_interval ([⟨0, 3, 0, 10, 2, false⟩, ⟨4, 9, 0, 10, 2, false⟩] : List SleepBlockRow) ([(0, 10)] : List (Int × Int)))).filter
          (fun q => decide (q.interval_start = iv.1) && q.is_longest_block) = []) ∧
      (([⟨0, 3, 0, 10, 2, false⟩, ⟨4, 9, 0, 10, 2, false⟩] : List SleepBlockRow).filter (fun q => decide (q.interval_start = iv.1)) ≠ [] →
        ∃ m, pickLongest (([⟨0, 3, 0, 10, 2, false⟩, ⟨4, 9, 0, 10, 2, false⟩] : List SleepBlockRow).filter (fun q => decide (q.interval_start = iv.1)))
            = some m ∧
          (mark_longest ([⟨0, 3, 0, 10, 2, false⟩, ⟨4, 9, 0, 10, 2, false⟩] : List SleepBlockRow) (longest_per_interval ([⟨0, 3, 0, 10, 2, false⟩, ⟨4, 9, 0, 10, 2, false⟩] : List SleepBlockRow) ([(0, 10)] : List (Int × Int)))).filter
            (fun q => decide (q.interval_start = iv.1) && q.is_longest_block)
            = [setFlag true m] ∧
          (m.start, m.end_) ∈ longest_per_interval ([⟨0, 3, 0, 10, 2, false⟩, ⟨4, 9, 0, 10, 2, false⟩] : List SleepBlockRow) ([(0, 10)] : List (Int × Int)) ∧
          ∀ q ∈ ([⟨0, 3, 0, 10, 2, false⟩, ⟨4, 9, 0, 10, 2, false⟩] : List SleepBlockRow).filter (fun q2 => decide (q2.interval_start = iv.1)),
            blockDuration q ≤ blockDuration m ∧
            (blockDuration q = blockDuration m → m.start ≤ q.start)))) :=
  ⟨by decide, by decide,
    longest_block_marking ([⟨0, 3, 0, 10, 2, false⟩, ⟨4, 9, 0, 10, 2, false⟩] : List SleepBlockRow) ([(0, 10)] : List (Int × Int)) (by decide) (by decide)⟩
